import Mathlib

/-!
Shallow embedding of the editable-blog server (`src/server.js`): an Express
application over a Supabase `posts` table and an `uploads` storage bucket.

Modelling conventions:
* The `posts` table is a `List Post`; the primary key constraint on `id`
  makes an insert of a duplicate id fail (`createPost` returns 500 and
  leaves the table unchanged), `.eq('id', i)` filters rows by id, and
  `.single()` succeeds exactly when one row matches.
* Timestamps (`new Date().toISOString()` / `Date.now()`) are modelled as a
  natural number `now` passed to each handler; ISO-8601 strings compare
  the same way as the instants they denote.
* Infrastructure failures of the database connection itself (the 500
  branches on transport errors) are outside the model, except where a
  claim mentions them: `uploadHandler` takes a `storageOk` flag for the
  storage write, and `createPost` surfaces the duplicate-key failure.
* JavaScript string truthiness: for the PUT and POST bodies a field is a
  `Option String`, `none` for an absent field; `truthy` is `!x` negated,
  i.e. present and non-empty.
-/

namespace Blog

/-- A row of the `posts` table, as inserted by the POST handler. -/
structure Post where
  id : String
  title : String
  content : String
  created_at : Nat
  updated_at : Nat
deriving DecidableEq

/-- The `posts` table. -/
abbrev Store := List Post

/-- One element of the `GET /api/posts` response array. -/
structure PostSummary where
  id : String
  title : String
  createdAt : Nat
  updatedAt : Nat
  preview : String
deriving DecidableEq

/-- The JSON body of a response. -/
inductive Body where
  | posts : List PostSummary → Body
  | post : Post → Body
  | err : String → Body
  | message : String → Body
  | uploaded : String → String → Body
deriving DecidableEq

/-- An HTTP response: status code plus JSON body. -/
structure Resp where
  status : Nat
  body : Body
deriving DecidableEq

/-- JavaScript truthiness of an optional string field: `!x` is false
exactly when the field is present and non-empty. -/
def truthy : Option String → Bool
  | none => false
  | some s => s != ""

/-! ### Tag stripping (the regex `content.replace(/<[^>]*>/g, '')`) -/

/-- Scanning for the end of a candidate tag: the regex fragment `[^>]*>`
consumes characters up to and including the first `>`; `none` when no
`>` remains (the regex then fails to match at this `<`). -/
def dropTag : List Char → Option (List Char)
  | [] => none
  | c :: rest => if c = '>' then some rest else dropTag rest

theorem dropTag_length_lt : ∀ l rest2, dropTag l = some rest2 → rest2.length < l.length := by
  intro l
  induction l with
  | nil => intro rest2 h; simp [dropTag] at h
  | cons c rest ih =>
    intro rest2 h
    simp only [dropTag] at h
    by_cases hc : c = '>'
    · rw [if_pos hc] at h
      cases h
      simp only [List.length_cons]
      omega
    · rw [if_neg hc] at h
      have := ih rest2 h
      simp only [List.length_cons]
      omega

/-- One global pass of `replace(/<[^>]*>/g, '')`: each match `<[^>]*>` is
deleted; a `<` with no later `>` cannot match, so the remainder is kept
verbatim. -/
def stripTagsAux : List Char → List Char
  | [] => []
  | c :: rest =>
    if c = '<' then
      match h : dropTag rest with
      | some rest2 => stripTagsAux rest2
      | none => c :: rest
    else c :: stripTagsAux rest
termination_by l => l.length
decreasing_by
  · have := dropTag_length_lt rest rest2 h
    simp only [List.length_cons]
    omega
  · simp only [List.length_cons]
    omega

/-- Model of `content.replace(/<[^>]*>/g, '')`. -/
def stripTags (s : String) : String := String.mk (stripTagsAux s.data)

/-- The preview computed by the list handler:
`post.content.replace(/<[^>]*>/g, '').slice(0, 150)`. -/
def preview (content : String) : String :=
  String.mk ((stripTags content).data.take 150)

/-- Projection of a row to a `GET /api/posts` list entry. -/
def toSummary (p : Post) : PostSummary :=
  ⟨p.id, p.title, p.created_at, p.updated_at, preview p.content⟩

/-! ### Ordering by `created_at` descending (`.order('created_at', { ascending: false })`) -/

/-- Insertion step of the descending sort on `created_at`. -/
def sortInsert (p : Post) : List Post → List Post
  | [] => [p]
  | q :: t => if p.created_at ≤ q.created_at then q :: sortInsert p t else p :: q :: t

/-- The table ordered by `created_at` descending. -/
def sortByCreatedDesc : List Post → List Post
  | [] => []
  | p :: t => sortInsert p (sortByCreatedDesc t)

/-- The array returned by `GET /api/posts`. -/
def listedPosts (db : Store) : List PostSummary :=
  (sortByCreatedDesc db).map toSummary

/-- Handler for `GET /api/posts` (success path of the select). -/
def listPosts (db : Store) : Resp :=
  ⟨200, Body.posts (listedPosts db)⟩

/-! ### The remaining post handlers -/

/-- Handler for `GET /api/posts/:id`: `.eq('id', id).single()` succeeds exactly when
one row matches; otherwise the handler answers 404. -/
def getPost (db : Store) (i : String) : Resp :=
  match db.filter (fun p => p.id == i) with
  | [p] => ⟨200, Body.post p⟩
  | _ => ⟨404, Body.err "Post not found"⟩

/-- Row built by `POST /api/posts`: the handler answers 400 when `!title || !content`; otherwise it inserts
`{ id: post-Date.now(), title, content, created_at: now, updated_at: now }`.
A duplicate id violates the primary key and surfaces as 500. -/
def newPost (title content : Option String) (now : Nat) : Post :=
  ⟨"post-" ++ toString now, title.getD "", content.getD "", now, now⟩

/-- The create handler itself; see `newPost` for the inserted row. -/
def createPost (db : Store) (title content : Option String) (now : Nat) : Resp × Store :=
  if truthy title = false ∨ truthy content = false then
    (⟨400, Body.err "Title and content required"⟩, db)
  else if db.any (fun p => p.id == "post-" ++ toString now) then
    (⟨500, Body.err "duplicate key value violates unique constraint"⟩, db)
  else
    (⟨201, Body.post (newPost title content now)⟩, db ++ [newPost title content now])

/-- The row update built by the PUT handler: `updated_at` always, `title`
and `content` only when truthy. -/
def applyUpdate (mt mc : Option String) (now : Nat) (p : Post) : Post :=
  { id := p.id
    title := if truthy mt then mt.getD p.title else p.title
    content := if truthy mc then mc.getD p.content else p.content
    created_at := p.created_at
    updated_at := now }

/-- Handler for `PUT /api/posts/:id`: `.update(updates).eq('id', id).select().single()`
updates every matching row; `.single()` succeeds exactly when one row
matched, otherwise the handler answers 404. -/
def updatePost (db : Store) (i : String) (mt mc : Option String) (now : Nat) : Resp × Store :=
  let db2 : Store := db.map (fun p => if p.id == i then applyUpdate mt mc now p else p)
  match db.filter (fun p => p.id == i) with
  | [p] => (⟨200, Body.post (applyUpdate mt mc now p)⟩, db2)
  | _ => (⟨404, Body.err "Post not found"⟩, db2)

/-- Handler for `DELETE /api/posts/:id`: `.delete().eq('id', id)` removes the matching
rows and succeeds whether or not any row matched; the handler then always
answers 200. -/
def deletePost (db : Store) (i : String) : Resp × Store :=
  (⟨200, Body.message "Post deleted"⟩, db.filter (fun p => p.id != i))

/-- Primary key well-formedness of the table: ids are distinct. -/
def WF (db : Store) : Prop := (db.map (fun p => p.id)).Nodup

/-! ### Upload (`multer` configuration and `POST /api/upload`) -/

/-- The multer `fileSize` limit: `50 * 1024 * 1024`. -/
def maxFileSize : Nat := 50 * 1024 * 1024

/-- The alternatives of the `fileFilter` regex
`/\.(jpg|jpeg|png|gif|webp|mp4|webm|mov|svg)$/i`. -/
def allowedExts : List String :=
  ["jpg", "jpeg", "png", "gif", "webp", "mp4", "webm", "mov", "svg"]

/-- ASCII-lowercasing of a string, for the regex `i` flag. -/
def strLower (s : String) : String := String.mk (s.data.map Char.toLower)

/-- Whether `t` is a suffix of `s` (the `$` anchor of the regex). -/
def endsWithStr (s t : String) : Bool :=
  s.data.drop (s.data.length - t.data.length) == t.data

/-- Model of Node `path.extname` (posix): the part of the basename from
its last dot, or the empty string when the basename has no dot after its
first character. -/
def extname (s : String) : String :=
  let rb := ((s.data.reverse).dropWhile (fun c => c == '/')).takeWhile (fun c => c != '/')
  match rb.span (fun c => c != '.') with
  | (pre, _ :: rest) => if rest.isEmpty then "" else String.mk ('.' :: pre.reverse)
  | (_, []) => ""

/-- The `fileFilter` test: `/\.(jpg|jpeg|png|gif|webp|mp4|webm|mov|svg)$/i`
applied to `path.extname(file.originalname)`. -/
def extAllowed (e : String) : Bool :=
  allowedExts.any (fun a => endsWithStr (strLower e) (String.mk ('.' :: a.data)))

/-- The multipart file as multer hands it to the handler. -/
structure UploadedFile where
  originalname : String
  size : Nat
deriving DecidableEq

/-- Stored filename of `POST /api/upload`: `file` is `none` when no `file` field was sent
(400). Multer rejects a disallowed extension (`fileFilter` error) or a
file above the size limit before the handler runs; both surface through
the Express error path as 500. On acceptance the stored name is
`Date.now() + '-' + uuidv4().slice(0, 8) + ext`; `uuid` stands for the
`uuidv4()` output and `storageOk` for the Supabase storage write
succeeding; `base` is the bucket's public URL root, so that
`getPublicUrl` yields `base ++ filename`. -/
def uploadFilename (f : UploadedFile) (now : Nat) (uuid : String) : String :=
  toString now ++ "-" ++ String.mk (uuid.data.take 8) ++ extname f.originalname

/-- The handler pipeline itself; see `uploadFilename` for the stored name. -/
def uploadHandler (file : Option UploadedFile) (now : Nat) (uuid : String)
    (base : String) (storageOk : Bool) : Resp :=
  match file with
  | none => ⟨400, Body.err "No file uploaded"⟩
  | some f =>
    if extAllowed (extname f.originalname) = false then
      ⟨500, Body.err "Only image and video files are allowed"⟩
    else if maxFileSize < f.size then
      ⟨500, Body.err "File too large"⟩
    else if storageOk = false then
      ⟨500, Body.err "storage upload failed"⟩
    else
      ⟨200, Body.uploaded (base ++ uploadFilename f now uuid) (uploadFilename f now uuid)⟩

/-! ### Sequences of creates (for the listing claim) -/

/-- One `POST /api/posts` request body plus its arrival time. -/
structure CreateReq where
  title : Option String
  content : Option String
  now : Nat

/-- Run a sequence of create requests against the table, counting the
requests that answered 201. -/
def runCreates (db : Store) : List CreateReq → Store × Nat
  | [] => (db, 0)
  | r :: rs =>
    let step := createPost db r.title r.content r.now
    let rest := runCreates step.2 rs
    (rest.1, rest.2 + (if step.1.status = 201 then 1 else 0))

/-! ### Ordering lemmas -/

theorem sortInsert_perm (p : Post) (l : List Post) : (sortInsert p l).Perm (p :: l) := by
  induction l with
  | nil => simp [sortInsert]
  | cons q t ih =>
    simp only [sortInsert]
    by_cases hle : p.created_at ≤ q.created_at
    · rw [if_pos hle]
      exact (ih.cons q).trans (List.Perm.swap p q t)
    · rw [if_neg hle]

theorem sortByCreatedDesc_perm (db : Store) : (sortByCreatedDesc db).Perm db := by
  induction db with
  | nil => simp [sortByCreatedDesc]
  | cons p t ih =>
    simp only [sortByCreatedDesc]
    exact (sortInsert_perm p _).trans (ih.cons p)

theorem sortInsert_sorted (p : Post) (l : List Post)
    (h : l.Pairwise (fun a b => b.created_at ≤ a.created_at)) :
    (sortInsert p l).Pairwise (fun a b => b.created_at ≤ a.created_at) := by
  induction l with
  | nil => simp [sortInsert]
  | cons q t ih =>
    rcases List.pairwise_cons.mp h with ⟨hq, ht⟩
    simp only [sortInsert]
    by_cases hle : p.created_at ≤ q.created_at
    · rw [if_pos hle]
      refine List.pairwise_cons.mpr ⟨?_, ih ht⟩
      intro x hx
      have hx2 := (sortInsert_perm p t).mem_iff.mp hx
      rcases List.mem_cons.mp hx2 with h1 | h2
      · rw [h1]; exact hle
      · exact hq x h2
    · rw [if_neg hle]
      push_neg at hle
      refine List.pairwise_cons.mpr ⟨?_, h⟩
      intro x hx
      rcases List.mem_cons.mp hx with h1 | h2
      · rw [h1]; exact le_of_lt hle
      · exact le_trans (hq x h2) (le_of_lt hle)

theorem sortByCreatedDesc_sorted (db : Store) :
    (sortByCreatedDesc db).Pairwise (fun a b => b.created_at ≤ a.created_at) := by
  induction db with
  | nil => simp [sortByCreatedDesc]
  | cons p t ih =>
    simp only [sortByCreatedDesc]
    exact sortInsert_sorted p _ ih

/-! ### Create bookkeeping lemmas -/

theorem createPost_cases (db : Store) (t c : Option String) (now : Nat) :
    ((createPost db t c now).1.status = 201 ∧
      (createPost db t c now).2 = db ++ [newPost t c now]) ∨
    ((createPost db t c now).1.status ≠ 201 ∧ (createPost db t c now).2 = db) := by
  simp only [createPost]
  split_ifs with h1 h2
  · right; exact ⟨by show (400 : Nat) ≠ 201; omega, rfl⟩
  · right; exact ⟨by show (500 : Nat) ≠ 201; omega, rfl⟩
  · left; exact ⟨rfl, rfl⟩

theorem runCreates_length (rs : List CreateReq) (db : Store) :
    (runCreates db rs).1.length = db.length + (runCreates db rs).2 := by
  induction rs generalizing db with
  | nil => simp [runCreates]
  | cons r rs ih =>
    simp only [runCreates]
    rcases createPost_cases db r.title r.content r.now with ⟨hs, hdb⟩ | ⟨hs, hdb⟩
    · have h1 := ih (createPost db r.title r.content r.now).2
      rw [hdb] at h1
      simp only [List.length_append, List.length_cons, List.length_nil] at h1
      rw [hdb, hs, if_pos rfl]
      omega
    · rw [if_neg hs]
      have h1 := ih (createPost db r.title r.content r.now).2
      rw [hdb] at h1
      rw [hdb]
      omega

/-- C2: `GET /api/posts` answers 200 with, for every table state, a list
that is a permutation of the summaries of all stored posts (hence one
entry per post), ordered by creation time descending; and after a run of
create requests starting from the empty table the list has exactly as
many entries as there were successful (201) creates. -/
theorem listing_complete_sorted_and_counts (db : Store) (rs : List CreateReq) :
    listPosts db = ⟨200, Body.posts (listedPosts db)⟩ ∧
    (listedPosts db).Pairwise (fun a b => b.createdAt ≤ a.createdAt) ∧
    (listedPosts db).Perm (db.map toSummary) ∧
    (listedPosts (runCreates [] rs).1).length = (runCreates [] rs).2 := by
  refine ⟨rfl, ?_, ?_, ?_⟩
  · have hs := sortByCreatedDesc_sorted db
    exact List.pairwise_map.mpr hs
  · exact (sortByCreatedDesc_perm db).map toSummary
  · have h1 := runCreates_length rs []
    have h2 : (listedPosts (runCreates [] rs).1).length = (runCreates [] rs).1.length := by
      simp only [listedPosts, List.length_map]
      exact ((sortByCreatedDesc_perm (runCreates [] rs).1).length_eq)
    rw [h2, h1]
    simp

/-- C3: every entry of the list returned by `GET /api/posts` carries a
preview equal to the post's content with the HTML tags removed and
truncated to 150 characters: a prefix of the stripped content of length
at most 150. -/
theorem listing_preview_is_stripped_truncation (db : Store) (l : List PostSummary)
    (hl : (listPosts db).body = Body.posts l) (s : PostSummary) (hs : s ∈ l) :
    ∃ p, p ∈ db ∧ s = toSummary p ∧
      s.preview = String.mk ((stripTags p.content).data.take 150) ∧
      s.preview.length ≤ 150 ∧
      ∃ t, s.preview.data ++ t = (stripTags p.content).data := by
  have hl2 : l = listedPosts db := by
    simpa [listPosts] using hl.symm
  subst hl2
  rcases List.mem_map.mp hs with ⟨p, hp, hps⟩
  refine ⟨p, (sortByCreatedDesc_perm db).mem_iff.mp hp, hps.symm, ?_, ?_, ?_⟩
  · rw [← hps]; rfl
  · rw [← hps]
    show (preview p.content).length ≤ 150
    simp only [preview, String.length, List.length_take]
    omega
  · rw [← hps]
    exact ⟨(stripTags p.content).data.drop 150, List.take_append_drop 150 _⟩

/-- Witness for C3 at a concrete table: one post whose content is
`<b>hi</b>`, whose summary carries as preview the stripped prefix of
that same post's content. -/
theorem listing_preview_witness :
    ∃ p, p ∈ ([⟨"post-1", "t", "<b>hi</b>", 1, 1⟩] : Store) ∧
      toSummary ⟨"post-1", "t", "<b>hi</b>", 1, 1⟩ = toSummary p ∧
      (toSummary ⟨"post-1", "t", "<b>hi</b>", 1, 1⟩).preview =
        String.mk ((stripTags p.content).data.take 150) ∧
      (toSummary ⟨"post-1", "t", "<b>hi</b>", 1, 1⟩).preview.length ≤ 150 ∧
      ∃ t, (toSummary ⟨"post-1", "t", "<b>hi</b>", 1, 1⟩).preview.data ++ t =
        (stripTags p.content).data :=
  listing_preview_is_stripped_truncation
    [⟨"post-1", "t", "<b>hi</b>", 1, 1⟩]
    (listedPosts [⟨"post-1", "t", "<b>hi</b>", 1, 1⟩]) rfl
    (toSummary ⟨"post-1", "t", "<b>hi</b>", 1, 1⟩)
    (List.mem_singleton.mpr rfl)

/-! ### Validation and filtering lemmas -/

theorem truthy_eq_false_iff (o : Option String) :
    truthy o = false ↔ (o = none ∨ o = some "") := by
  cases o with
  | none => simp [truthy]
  | some s => simp [truthy]

theorem filter_id_eq_nil (db : Store) (i : String)
    (h : ∀ q ∈ db, q.id ≠ i) : db.filter (fun q => q.id == i) = [] := by
  induction db with
  | nil => rfl
  | cons q t ih =>
    have hq : (q.id == i) = false := beq_eq_false_iff_ne.mpr (h q (List.mem_cons_self q t))
    simp only [List.filter_cons, hq, Bool.false_eq_true, if_neg]
    exact ih (fun r hr => h r (List.mem_cons_of_mem q hr))

theorem filter_id_singleton (db : Store) (p : Post) (hwf : WF db) (hp : p ∈ db) :
    db.filter (fun q => q.id == p.id) = [p] := by
  induction db with
  | nil => exact absurd hp (List.not_mem_nil p)
  | cons q t ih =>
    rcases List.nodup_cons.mp hwf with ⟨hq, ht⟩
    rcases List.mem_cons.mp hp with h1 | h2
    · subst h1
      simp only [List.filter_cons, beq_self_eq_true, if_pos]
      have : t.filter (fun q => q.id == p.id) = [] := by
        refine filter_id_eq_nil t p.id (fun r hr hri => ?_)
        exact hq (List.mem_map.mpr ⟨r, hr, hri⟩)
      rw [this]
    · have hqp : (q.id == p.id) = false := by
        refine beq_eq_false_iff_ne.mpr (fun hqi => ?_)
        exact hq (List.mem_map.mpr ⟨p, h2, hqi.symm⟩)
      simp only [List.filter_cons, hqp, Bool.false_eq_true, if_neg]
      exact ih ht h2

/-- C1: creating a post with a non-empty title and non-empty content and
then fetching it under the id of the 201 response returns a post whose
title and content are the ones given at creation. -/
theorem create_then_get_returns_same (db : Store) (ts cs : String) (now : Nat) (p : Post)
    (hts : ts ≠ "") (hcs : cs ≠ "")
    (h : (createPost db (some ts) (some cs) now).1 = ⟨201, Body.post p⟩) :
    getPost (createPost db (some ts) (some cs) now).2 p.id = ⟨200, Body.post p⟩ ∧
    p.title = ts ∧ p.content = cs := by
  simp only [createPost] at h ⊢
  split_ifs at h ⊢ with h1 h2
  · exact absurd (congrArg Resp.status h) (by show (400 : Nat) ≠ 201; omega)
  · exact absurd (congrArg Resp.status h) (by show (500 : Nat) ≠ 201; omega)
  · have hp : p = newPost (some ts) (some cs) now := by
      have := congrArg Resp.body h
      simpa using this.symm
    subst hp
    refine ⟨?_, rfl, rfl⟩
    have hdbnil : db.filter (fun q => q.id == (newPost (some ts) (some cs) now).id) = [] := by
      refine filter_id_eq_nil db _ (fun q hq hqi => ?_)
      have : db.any (fun p => p.id == "post-" ++ toString now) = true :=
        List.any_eq_true.mpr ⟨q, hq, beq_iff_eq.mpr hqi⟩
      exact h2 this
    simp only [getPost, List.filter_append, hdbnil, List.nil_append, List.filter_cons,
      beq_self_eq_true, if_pos, List.filter_nil]

/-- Witness for C1 on the empty table. -/
theorem create_then_get_witness :
    getPost (createPost [] (some "a") (some "b") 3).2 (Post.mk "post-3" "a" "b" 3 3).id =
      ⟨200, Body.post (Post.mk "post-3" "a" "b" 3 3)⟩ ∧
    (Post.mk "post-3" "a" "b" 3 3).title = "a" ∧
    (Post.mk "post-3" "a" "b" 3 3).content = "b" :=
  create_then_get_returns_same [] "a" "b" 3 (Post.mk "post-3" "a" "b" 3 3)
    (by decide) (by decide) (by decide)

/-- C4: `POST /api/posts` answers 400 exactly when the title or the
content is missing or empty; a 201 response carries a post whose
`created_at` and `updated_at` are equal and whose id is the freshly
generated `post-<now>`, distinct from every id already stored. -/
theorem create_validation_and_timestamps (db : Store) (t c : Option String) (now : Nat) :
    ((createPost db t c now).1.status = 400 ↔
      (t = none ∨ t = some "" ∨ c = none ∨ c = some "")) ∧
    (∀ p, (createPost db t c now).1 = ⟨201, Body.post p⟩ →
      p.created_at = p.updated_at ∧ p.id = "post-" ++ toString now ∧
      ∀ q ∈ db, q.id ≠ p.id) := by
  simp only [createPost]
  split_ifs with h1 h2
  · constructor
    · refine ⟨fun _ => ?_, fun _ => rfl⟩
      rcases h1 with h1 | h1
      · rcases (truthy_eq_false_iff t).mp h1 with h | h
        · exact Or.inl h
        · exact Or.inr (Or.inl h)
      · rcases (truthy_eq_false_iff c).mp h1 with h | h
        · exact Or.inr (Or.inr (Or.inl h))
        · exact Or.inr (Or.inr (Or.inr h))
    · intro p hp
      exact absurd (congrArg Resp.status hp) (by show (400 : Nat) ≠ 201; omega)
  · constructor
    · constructor
      · intro h; exact absurd h (by show (500 : Nat) ≠ 400; omega)
      · intro h
        exfalso
        rcases h with h | h | h | h
        · exact h1 (Or.inl ((truthy_eq_false_iff t).mpr (Or.inl h)))
        · exact h1 (Or.inl ((truthy_eq_false_iff t).mpr (Or.inr h)))
        · exact h1 (Or.inr ((truthy_eq_false_iff c).mpr (Or.inl h)))
        · exact h1 (Or.inr ((truthy_eq_false_iff c).mpr (Or.inr h)))
    · intro p hp
      exact absurd (congrArg Resp.status hp) (by show (500 : Nat) ≠ 201; omega)
  · constructor
    · constructor
      · intro h; exact absurd h (by show (201 : Nat) ≠ 400; omega)
      · intro h
        exfalso
        rcases h with h | h | h | h
        · exact h1 (Or.inl ((truthy_eq_false_iff t).mpr (Or.inl h)))
        · exact h1 (Or.inl ((truthy_eq_false_iff t).mpr (Or.inr h)))
        · exact h1 (Or.inr ((truthy_eq_false_iff c).mpr (Or.inl h)))
        · exact h1 (Or.inr ((truthy_eq_false_iff c).mpr (Or.inr h)))
    · intro p hp
      have hp2 : p = newPost t c now := by
        have := congrArg Resp.body hp
        simpa using this.symm
      subst hp2
      refine ⟨rfl, rfl, fun q hq hqid => ?_⟩
      exact h2 (List.any_eq_true.mpr ⟨q, hq, beq_iff_eq.mpr hqid⟩)

/-- Witness for C4 on the empty table with non-empty fields. -/
theorem create_validation_witness :
    ((createPost [] (some "a") (some "b") 3).1.status = 400 ↔
      ((some "a" : Option String) = none ∨ (some "a" : Option String) = some "" ∨
       (some "b" : Option String) = none ∨ (some "b" : Option String) = some "")) ∧
    ((newPost (some "a") (some "b") 3).created_at = (newPost (some "a") (some "b") 3).updated_at ∧
      (newPost (some "a") (some "b") 3).id = "post-" ++ toString 3 ∧
      ∀ q ∈ ([] : Store), q.id ≠ (newPost (some "a") (some "b") 3).id) :=
  ⟨(create_validation_and_timestamps [] (some "a") (some "b") 3).1,
   (create_validation_and_timestamps [] (some "a") (some "b") 3).2
     (newPost (some "a") (some "b") 3) (by decide)⟩

/-! ### Update and delete -/

theorem updatePost_found (db : Store) (i : String) (mt mc : Option String) (now : Nat)
    (p : Post) (hwf : WF db) (hp : p ∈ db) (hid : p.id = i) :
    (updatePost db i mt mc now).1 = ⟨200, Body.post (applyUpdate mt mc now p)⟩ := by
  have hfil : db.filter (fun q => q.id == i) = [p] := by
    rw [← hid]
    exact filter_id_singleton db p hwf hp
  simp only [updatePost, hfil]

theorem map_eq_self_of_fix (db : Store) (f : Post → Post) (h : ∀ q ∈ db, f q = q) :
    db.map f = db := by
  induction db with
  | nil => rfl
  | cons q t ih =>
    simp only [List.map_cons]
    rw [h q (List.mem_cons_self q t), ih (fun r hr => h r (List.mem_cons_of_mem q hr))]

/-- C5: `PUT /api/posts/:id` on an unknown id answers 404 and leaves the
table unchanged; on a stored post it answers 200 with the partially
updated post: id and `created_at` unchanged, a non-supplied title or
content kept, `updated_at` set to the request time (strictly advanced
whenever the clock moved), and every other stored post untouched. -/
theorem update_partial_fields_and_404 (db : Store) (i : String) (mt mc : Option String)
    (now : Nat) :
    ((∀ q ∈ db, q.id ≠ i) →
      (updatePost db i mt mc now).1 = ⟨404, Body.err "Post not found"⟩ ∧
      (updatePost db i mt mc now).2 = db) ∧
    (∀ p, WF db → p ∈ db → p.id = i →
      (updatePost db i mt mc now).1 = ⟨200, Body.post (applyUpdate mt mc now p)⟩ ∧
      (applyUpdate mt mc now p).id = p.id ∧
      (applyUpdate mt mc now p).created_at = p.created_at ∧
      (truthy mt = false → (applyUpdate mt mc now p).title = p.title) ∧
      (truthy mc = false → (applyUpdate mt mc now p).content = p.content) ∧
      (applyUpdate mt mc now p).updated_at = now ∧
      (p.updated_at < now → p.updated_at < (applyUpdate mt mc now p).updated_at) ∧
      (∀ q ∈ db, q.id ≠ i → q ∈ (updatePost db i mt mc now).2)) := by
  constructor
  · intro hnone
    have hfil := filter_id_eq_nil db i hnone
    have hmap : db.map (fun p => if p.id == i then applyUpdate mt mc now p else p) = db := by
      refine map_eq_self_of_fix db _ (fun q hq => ?_)
      rw [if_neg]
      simp only [beq_iff_eq]
      exact hnone q hq
    simp only [updatePost, hfil, hmap]
    constructor <;> trivial
  · intro p hwf hp hid
    have hfil : db.filter (fun q => q.id == i) = [p] := by
      rw [← hid]
      exact filter_id_singleton db p hwf hp
    refine ⟨updatePost_found db i mt mc now p hwf hp hid, rfl, rfl, ?_, ?_, rfl,
      fun h => h, ?_⟩
    · intro hmt; simp [applyUpdate, hmt]
    · intro hmc; simp [applyUpdate, hmc]
    · intro q hq hqi
      simp only [updatePost, hfil]
      refine List.mem_map.mpr ⟨q, hq, ?_⟩
      rw [if_neg]
      simp only [beq_iff_eq]
      exact hqi

/-- Witness for C5: a one-post table, updating only the content. -/
theorem update_partial_witness :
    (updatePost [Post.mk "a" "t" "c" 1 1] "a" none (some "nc") 9).1 =
      ⟨200, Body.post (applyUpdate none (some "nc") 9 (Post.mk "a" "t" "c" 1 1))⟩ ∧
    (applyUpdate none (some "nc") 9 (Post.mk "a" "t" "c" 1 1)).id =
      (Post.mk "a" "t" "c" 1 1).id ∧
    (applyUpdate none (some "nc") 9 (Post.mk "a" "t" "c" 1 1)).created_at = 1 ∧
    (applyUpdate none (some "nc") 9 (Post.mk "a" "t" "c" 1 1)).title = "t" ∧
    (applyUpdate none (some "nc") 9 (Post.mk "a" "t" "c" 1 1)).updated_at = 9 := by
  have h := (update_partial_fields_and_404 [Post.mk "a" "t" "c" 1 1] "a" none (some "nc") 9).2
    (Post.mk "a" "t" "c" 1 1) (by simp [WF])
    (List.mem_singleton.mpr rfl) rfl
  exact ⟨h.1, h.2.1, h.2.2.1, h.2.2.2.1 rfl, h.2.2.2.2.2.1⟩

/-- C9: a PUT body supplying neither field, or supplying both as empty
strings, is handled identically (no 400): for a stored post it answers
200, keeps title and content, and still sets `updated_at` to the request
time. -/
theorem update_empty_fields_like_absent (db : Store) (i : String) (now : Nat) (p : Post)
    (hwf : WF db) (hp : p ∈ db) (hid : p.id = i) :
    updatePost db i none none now = updatePost db i (some "") (some "") now ∧
    (updatePost db i none none now).1 = ⟨200, Body.post (applyUpdate none none now p)⟩ ∧
    (updatePost db i none none now).1.status ≠ 400 ∧
    (applyUpdate none none now p).title = p.title ∧
    (applyUpdate none none now p).content = p.content ∧
    (applyUpdate none none now p).updated_at = now := by
  have happ : applyUpdate none none now = applyUpdate (some "") (some "") now := by
    funext q
    simp [applyUpdate, truthy]
  have h200 := updatePost_found db i none none now p hwf hp hid
  refine ⟨?_, h200, ?_, rfl, rfl, rfl⟩
  · simp only [updatePost, happ]
  · rw [h200]
    show (200 : Nat) ≠ 400
    omega

/-- Witness for C9 on a one-post table. -/
theorem update_empty_fields_witness :
    updatePost [Post.mk "a" "t" "c" 1 1] "a" none none 9 =
      updatePost [Post.mk "a" "t" "c" 1 1] "a" (some "") (some "") 9 ∧
    (updatePost [Post.mk "a" "t" "c" 1 1] "a" none none 9).1 =
      ⟨200, Body.post (applyUpdate none none 9 (Post.mk "a" "t" "c" 1 1))⟩ ∧
    (applyUpdate none none 9 (Post.mk "a" "t" "c" 1 1)).title = "t" ∧
    (applyUpdate none none 9 (Post.mk "a" "t" "c" 1 1)).updated_at = 9 := by
  have h := update_empty_fields_like_absent [Post.mk "a" "t" "c" 1 1] "a" 9
    (Post.mk "a" "t" "c" 1 1) (by simp [WF]) (List.mem_singleton.mpr rfl) rfl
  exact ⟨h.1, h.2.1, h.2.2.2.1, h.2.2.2.2.2⟩

/-- Counterexample to C6 as stated: deleting a non-existent id does not
answer 404 with a JSON error; the handler answers 200 with a success
message. -/
theorem delete_unknown_id_counterexample :
    (deletePost [] "missing").1 = ⟨200, Body.message "Post deleted"⟩ ∧
    (deletePost [] "missing").1.status ≠ 404 := by
  exact ⟨rfl, by show (200 : Nat) ≠ 404; omega⟩

/-- C6 amended: `DELETE /api/posts/:id` always answers 200 with a success
message, whether or not the id names a stored post (an unknown id is not
rejected); and after deleting, fetching the same id returns 404
not-found. -/
theorem delete_then_get_not_found (db : Store) (i : String) :
    (deletePost db i).1 = ⟨200, Body.message "Post deleted"⟩ ∧
    getPost (deletePost db i).2 i = ⟨404, Body.err "Post not found"⟩ := by
  refine ⟨rfl, ?_⟩
  have hfil : (db.filter (fun p => p.id != i)).filter (fun p => p.id == i) = [] := by
    refine filter_id_eq_nil _ i (fun q hq => ?_)
    have := (List.mem_filter.mp hq).2
    exact bne_iff_ne.mp this
  simp only [deletePost, getPost, hfil]

/-! ### Upload claims -/

theorem str_data_append (a b : String) : (a ++ b).data = a.data ++ b.data := rfl

theorem endsWithStr_suffix (s t : String) (h : endsWithStr s t = true) :
    ∃ u, u ++ t.data = s.data := by
  unfold endsWithStr at h
  have hd : s.data.drop (s.data.length - t.data.length) = t.data := by
    exact beq_iff_eq.mp h
  have hsplit := List.take_append_drop (s.data.length - t.data.length) s.data
  rw [hd] at hsplit
  exact ⟨s.data.take (s.data.length - t.data.length), hsplit⟩

/-- C7: the upload route rejects (500 through the multer error path)
every file whose extension fails the allow-list regex and every file
larger than 50MB; every accepted file, once the storage write goes
through, is answered 200 with the stored filename and its public URL. -/
theorem upload_rejects_and_accepts (f : UploadedFile) (now : Nat) (uuid base : String)
    (ok : Bool) :
    (extAllowed (extname f.originalname) = false →
      uploadHandler (some f) now uuid base ok =
        ⟨500, Body.err "Only image and video files are allowed"⟩) ∧
    (maxFileSize < f.size → (uploadHandler (some f) now uuid base ok).status = 500) ∧
    (extAllowed (extname f.originalname) = true → f.size ≤ maxFileSize → ok = true →
      uploadHandler (some f) now uuid base ok =
        ⟨200, Body.uploaded (base ++ uploadFilename f now uuid) (uploadFilename f now uuid)⟩) := by
  refine ⟨?_, ?_, ?_⟩
  · intro hext
    simp [uploadHandler, hext]
  · intro hsize
    by_cases h1 : extAllowed (extname f.originalname) = false
    · simp [uploadHandler, h1]
    · have h1t : extAllowed (extname f.originalname) = true := by
        cases hb : extAllowed (extname f.originalname)
        · exact absurd hb h1
        · rfl
      simp [uploadHandler, h1t, hsize]
  · intro hext hsize hok
    subst hok
    have hns : ¬ (maxFileSize < f.size) := by omega
    simp [uploadHandler, hext, hns]

/-- Witness for C7: a `.exe` file is rejected, a small `.jpg` accepted. -/
theorem upload_rejects_and_accepts_witness :
    uploadHandler (some ⟨"virus.exe", 10⟩) 1 "0123456789" "u/" true =
      ⟨500, Body.err "Only image and video files are allowed"⟩ ∧
    (uploadHandler (some ⟨"big.jpg", 99999999999⟩) 1 "0123456789" "u/" true).status = 500 ∧
    uploadHandler (some ⟨"pic.jpg", 10⟩) 1 "0123456789" "u/" true =
      ⟨200, Body.uploaded ("u/" ++ uploadFilename ⟨"pic.jpg", 10⟩ 1 "0123456789")
        (uploadFilename ⟨"pic.jpg", 10⟩ 1 "0123456789")⟩ :=
  ⟨(upload_rejects_and_accepts ⟨"virus.exe", 10⟩ 1 "0123456789" "u/" true).1 (by decide),
   (upload_rejects_and_accepts ⟨"big.jpg", 99999999999⟩ 1 "0123456789" "u/" true).2.1
     (by decide),
   (upload_rejects_and_accepts ⟨"pic.jpg", 10⟩ 1 "0123456789" "u/" true).2.2
     (by decide) (by decide) rfl⟩

/-- C10: the stored filename of an accepted upload is
`<timestamp>-<8-character token><original extension>`: it decomposes as
the decimal timestamp, a dash, the 8-character uuid slice, and the
original file's extension, so it ends with that extension and, lowered,
with one of the allowed extensions. -/
theorem upload_filename_shape (f : UploadedFile) (now : Nat) (uuid base : String)
    (hext : extAllowed (extname f.originalname) = true)
    (hsize : f.size ≤ maxFileSize) (huuid : 8 ≤ uuid.data.length) :
    uploadHandler (some f) now uuid base true =
      ⟨200, Body.uploaded (base ++ uploadFilename f now uuid) (uploadFilename f now uuid)⟩ ∧
    (uploadFilename f now uuid).data =
      (toString now).data ++ ['-'] ++ uuid.data.take 8 ++ (extname f.originalname).data ∧
    (uuid.data.take 8).length = 8 ∧
    (∃ u, u ++ (extname f.originalname).data = (uploadFilename f now uuid).data) ∧
    (∃ a, a ∈ allowedExts ∧
      ∃ u, u ++ ('.' :: a.data) = (strLower (uploadFilename f now uuid)).data) := by
  have hresp : uploadHandler (some f) now uuid base true =
      ⟨200, Body.uploaded (base ++ uploadFilename f now uuid) (uploadFilename f now uuid)⟩ := by
    have hns : ¬ (maxFileSize < f.size) := by omega
    simp [uploadHandler, hext, hns]
  refine ⟨hresp, ?_, ?_, ?_, ?_⟩
  · simp only [uploadFilename, str_data_append, List.append_assoc]
  · simp only [List.length_take]
    omega
  · refine ⟨(toString now).data ++ ['-'] ++ uuid.data.take 8, ?_⟩
    simp only [uploadFilename, str_data_append, List.append_assoc]
  · rcases List.any_eq_true.mp hext with ⟨a, ha, hsuf⟩
    refine ⟨a, ha, ?_⟩
    rcases endsWithStr_suffix _ _ hsuf with ⟨u, hu⟩
    refine ⟨((toString now).data ++ ['-'] ++ uuid.data.take 8).map Char.toLower ++ u, ?_⟩
    have hlow : (strLower (uploadFilename f now uuid)).data =
        ((toString now).data ++ ['-'] ++ uuid.data.take 8).map Char.toLower ++
          (strLower (extname f.originalname)).data := by
      simp only [strLower, uploadFilename, str_data_append, List.map_append, List.append_assoc]
    rw [hlow, List.append_assoc, hu]

/-- Witness for C10: a `.mov` upload with a uuid of the real 36-character
shape. -/
theorem upload_filename_shape_witness :
    uploadHandler (some ⟨"clip.mov", 7⟩) 3 "0123456789abcdef" "u/" true =
      ⟨200, Body.uploaded ("u/" ++ uploadFilename ⟨"clip.mov", 7⟩ 3 "0123456789abcdef")
        (uploadFilename ⟨"clip.mov", 7⟩ 3 "0123456789abcdef")⟩ ∧
    (∃ u, u ++ (extname "clip.mov").data =
      (uploadFilename ⟨"clip.mov", 7⟩ 3 "0123456789abcdef").data) ∧
    (∃ a, a ∈ allowedExts ∧
      ∃ u, u ++ ('.' :: a.data) =
        (strLower (uploadFilename ⟨"clip.mov", 7⟩ 3 "0123456789abcdef")).data) := by
  have h := upload_filename_shape ⟨"clip.mov", 7⟩ 3 "0123456789abcdef" "u/"
    (by decide) (by decide) (by decide)
  exact ⟨h.1, h.2.2.2.1, h.2.2.2.2⟩

/-! ### The data-model invariant -/

/-- The spec's post invariant: timestamps ordered, title and content
non-empty. -/
def Inv (db : Store) : Prop :=
  ∀ p ∈ db, p.created_at ≤ p.updated_at ∧ p.title ≠ "" ∧ p.content ≠ ""

theorem truthy_getD_ne_empty (o : Option String) (h : truthy o = true) (d : String) :
    o.getD d ≠ "" := by
  cases o with
  | none => simp [truthy] at h
  | some s =>
    simp only [truthy] at h
    simpa using bne_iff_ne.mp h

theorem updatePost_store (db : Store) (i : String) (mt mc : Option String) (now : Nat) :
    (updatePost db i mt mc now).2 =
      db.map (fun p => if p.id == i then applyUpdate mt mc now p else p) := by
  simp only [updatePost]
  cases hfe : db.filter (fun p => p.id == i) with
  | nil => rfl
  | cons p l =>
    cases l with
    | nil => rfl
    | cons q l2 => rfl

theorem map_ids_of_id_fix (db : Store) (f : Post → Post) (h : ∀ p, (f p).id = p.id) :
    (db.map f).map (fun p => p.id) = db.map (fun p => p.id) := by
  induction db with
  | nil => rfl
  | cons q t ih =>
    simp only [List.map_cons, ih]
    rw [h q]

/-- C8: every post-store operation preserves the data-model invariant.
A create either rejects (table unchanged) or appends one new row whose
timestamps are equal and whose title and content are non-empty; an
update rewrites no id and, when the request clock is at or after every
stored creation time, keeps `created_at ≤ updated_at` and the fields
non-empty; a delete only removes rows. -/
theorem store_invariant_preserved (db : Store) (t c : Option String) (i : String)
    (mt mc : Option String) (now : Nat) :
    (Inv db → Inv (createPost db t c now).2) ∧
    ((createPost db t c now).2 = db ∨
      (createPost db t c now).2 = db ++ [newPost t c now]) ∧
    (Inv db → (∀ p ∈ db, p.created_at ≤ now) → Inv (updatePost db i mt mc now).2) ∧
    ((updatePost db i mt mc now).2.map (fun p => p.id) = db.map (fun p => p.id)) ∧
    (Inv db → Inv (deletePost db i).2) ∧
    (∀ p ∈ (deletePost db i).2, p ∈ db) := by
  refine ⟨?_, ?_, ?_, ?_, ?_, ?_⟩
  · intro hinv
    simp only [createPost]
    split_ifs with h1 h2
    · exact hinv
    · exact hinv
    · intro p hp
      rcases List.mem_append.mp hp with hin | hnew
      · exact hinv p hin
      · have hp2 : p = newPost t c now := List.mem_singleton.mp hnew
        subst hp2
        push_neg at h1
        rcases h1 with ⟨ht, hc⟩
        refine ⟨le_refl now, ?_, ?_⟩
        · exact truthy_getD_ne_empty t (by simpa using ht) ""
        · exact truthy_getD_ne_empty c (by simpa using hc) ""
  · simp only [createPost]
    split_ifs with h1 h2
    · exact Or.inl rfl
    · exact Or.inl rfl
    · exact Or.inr rfl
  · intro hinv hclock
    rw [updatePost_store]
    intro p hp
    rcases List.mem_map.mp hp with ⟨q, hq, hfq⟩
    by_cases hqi : (q.id == i) = true
    · rw [if_pos hqi] at hfq
      subst hfq
      rcases hinv q hq with ⟨_, hqt, hqc⟩
      refine ⟨hclock q hq, ?_, ?_⟩
      · simp only [applyUpdate]
        split_ifs with hmt
        · exact truthy_getD_ne_empty mt hmt q.title
        · exact hqt
      · simp only [applyUpdate]
        split_ifs with hmc
        · exact truthy_getD_ne_empty mc hmc q.content
        · exact hqc
    · rw [if_neg hqi] at hfq
      subst hfq
      exact hinv q hq
  · rw [updatePost_store]
    refine map_ids_of_id_fix db _ (fun p => ?_)
    by_cases hqi : (p.id == i) = true
    · rw [if_pos hqi]; rfl
    · rw [if_neg hqi]
  · intro hinv p hp
    exact hinv p (List.mem_filter.mp hp).1
  · intro p hp
    exact (List.mem_filter.mp hp).1

/-- Witness for C8 on a one-post table with a later clock. -/
theorem store_invariant_witness :
    Inv (createPost [Post.mk "post-1" "t" "c" 1 1] (some "t2") (some "c2") 5).2 ∧
    Inv (updatePost [Post.mk "post-1" "t" "c" 1 1] "post-1" (some "t3") none 6).2 ∧
    Inv (deletePost [Post.mk "post-1" "t" "c" 1 1] "post-1").2 := by
  have h := store_invariant_preserved [Post.mk "post-1" "t" "c" 1 1]
    (some "t2") (some "c2") "post-1" (some "t3") none 6
  have hinv : Inv [Post.mk "post-1" "t" "c" 1 1] := by
    intro p hp
    rcases List.mem_singleton.mp hp with rfl
    refine ⟨le_refl 1, ?_, ?_⟩ <;> decide
  refine ⟨?_, ?_, ?_⟩
  · have h5 := store_invariant_preserved [Post.mk "post-1" "t" "c" 1 1]
      (some "t2") (some "c2") "post-1" (some "t3") none 5
    exact h5.1 hinv
  · refine h.2.2.1 hinv ?_
    intro p hp
    rcases List.mem_singleton.mp hp with rfl
    decide
  · exact h.2.2.2.2.1 hinv

end Blog
